import Mathlib

/-!
Verification of the retrieval subsystem of the SPAM_everything voice agent.

The source under scrutiny is `src/voice_agent/rag.py` (class `KnowledgeBase`
with `ingest_document`, `search`, `create_rag_tool`), the sibling standalone
`rag.py` (`setup_rag`, `query_rag`) and `tools.py` (`query_information`).

Text is embedded as `List Char` (python strings are character sequences).
The chunker the source delegates to (`RecursiveCharacterTextSplitter` with
`separators=["\n\n", "\n", " ", ""]`, `keep_separator=True`,
`strip_whitespace=True`, `length_function=len`) is translated function by
function below.  The external collaborators (OpenAI embeddings, the Chroma
persistent index) are modelled from the spec's capability contracts:
`upsert(id, vector, text, metadata)` as insert-or-overwrite by id on an
association list, and `nearest(query_vector, k)` as ranking by ascending
distance; every embedding call and every upsert the code performs is
recorded in an explicit trace so that fail-fast claims can be stated.
-/

/-- Python strings, embedded as character lists. -/
abbrev Str := List Char

/-- Filesystem model: a path resolves to a file's text content, or to nothing. -/
abbrev Fs := String → Option Str

/-- Whitespace characters removed by python `str.strip()`: exactly the
characters with `str.isspace()` true — the ASCII whitespace and separator
controls U+0009-U+000D, U+001C-U+001F, U+0020 and U+0085, the no-break
space U+00A0, and the Unicode space characters U+1680, U+2000-U+200A,
U+2028, U+2029, U+202F, U+205F and U+3000. -/
def isPyWS (c : Char) : Bool :=
  (decide (0x09 ≤ c.toNat) && decide (c.toNat ≤ 0x0d)) || c.toNat == 0x20 ||
    (decide (0x1c ≤ c.toNat) && decide (c.toNat ≤ 0x1f)) || c.toNat == 0x85 ||
    c.toNat == 0xa0 || c.toNat == 0x1680 ||
    (decide (0x2000 ≤ c.toNat) && decide (c.toNat ≤ 0x200a)) ||
    c.toNat == 0x2028 || c.toNat == 0x2029 || c.toNat == 0x202f ||
    c.toNat == 0x205f || c.toNat == 0x3000

/-- Embedding of python `str.strip()`: drop whitespace from both ends. -/
def pyStrip (s : Str) : Str :=
  ((s.dropWhile isPyWS).reverse.dropWhile isPyWS).reverse

/-- Embedding of `re.search(re.escape(sep), text)` for a literal separator:
does `needle` occur as a contiguous substring of the text? -/
def containsSub (needle : Str) : Str → Bool
  | [] => needle.isPrefixOf []
  | c :: rest => needle.isPrefixOf (c :: rest) || containsSub needle rest

/-- Locate the first occurrence of `sep`: returns the text before the
occurrence and the text after it. -/
def findSep (sep : Str) : Str → Option (Str × Str)
  | [] => none
  | c :: rest =>
    if sep.isPrefixOf (c :: rest) then some ([], (c :: rest).drop sep.length)
    else
      match findSep sep rest with
      | some (pre, post) => some (c :: pre, post)
      | none => none

/-- Split on every occurrence of `sep` (python `re.split` on a literal
pattern), with explicit fuel; `fuel > text.length` makes it exact because
each found occurrence strictly shortens the remaining text. -/
def splitOnSepFuel (sep : Str) : Nat → Str → List Str
  | 0, text => [text]
  | fuel + 1, text =>
    match findSep sep text with
    | none => [text]
    | some (pre, post) => pre :: splitOnSepFuel sep fuel post

/-- Split `text` on every occurrence of the (nonempty) separator `sep`. -/
def splitOnSep (sep : Str) (text : Str) : List Str :=
  splitOnSepFuel sep (text.length + 1) text

/-- Reattach the captured separators in front of every piece but the first:
`re.split("(sep)", text)` with `keep_separator=True` recombines the pieces
as `[p0, sep+p1, sep+p2, ...]` in `_split_text_with_regex`. -/
def withSeps (sep : Str) : List Str → List Str
  | [] => []
  | p :: ps => p :: ps.map (fun q => sep ++ q)

/-- Embedding of langchain `_split_text_with_regex(text, sep, keep_separator=True)`:
split on the separator keeping it attached to the following piece (or split
into single characters when the separator is empty), then drop empty pieces. -/
def splitWithSep (sep : Str) (text : Str) : List Str :=
  (if sep = [] then text.map (fun c => [c]) else withSeps sep (splitOnSep sep text)).filter
    (fun s => !decide (s = []))

/-- Separator-selection loop of langchain `_split_text`: take the first
separator that is empty (with no further separators) or occurs in the text
(with the remaining separators for recursion). -/
def pickSepAux (text : Str) : List Str → Option (Str × List Str)
  | [] => none
  | s :: rest =>
    if s = [] then some ([], [])
    else if containsSub s text then some (s, rest)
    else pickSepAux text rest

/-- Chosen separator and the `new_separators` list for recursion; when no
separator matches, python keeps `separators[-1]` with no recursion list. -/
def pickSep (text : Str) (seps : List Str) : Str × List Str :=
  match pickSepAux text seps with
  | some r => r
  | none => (seps.getLastD [], [])

/-- Inner `while` loop of langchain `_merge_splits`, popping the front of
`current_doc` to make room; the loop never runs with an empty `current_doc`
because then `total = 0` and the condition is false. -/
def popWhile (cs co sepLen dlen : Nat) : List Str → Nat → List Str × Nat
  | [], total => ([], total)
  | c0 :: rest, total =>
    if total > co ∨ (total + dlen + (if (c0 :: rest).length > 0 then sepLen else 0) > cs ∧ total > 0) then
      popWhile cs co sepLen dlen rest (total - (c0.length + if rest.length > 0 then sepLen else 0))
    else (c0 :: rest, total)

/-- Python `separator.join(docs)`. -/
def sepJoin (sep : Str) : List Str → Str
  | [] => []
  | [d] => d
  | d :: ds => d ++ sep ++ sepJoin sep ds

/-- A chunk assembled by `_merge_splits`: join the window with the separator
and strip whitespace (`strip_whitespace=True`); an empty result is dropped. -/
def joinDocs (docs : List Str) (sep : Str) : Option Str :=
  let text := pyStrip (sepJoin sep docs)
  if text = [] then none else some text

/-- Main loop of langchain `_merge_splits` over the splits, carrying the
emitted chunks, the current window and its running total; the unconditional
`current_doc.append(d)` of the python loop appears at the tail of each
branch. -/
def mergeLoop (cs co : Nat) (sep : Str) : List Str → List Str → Nat → List Str → List Str
  | docs, cur, _total, [] => docs ++ (joinDocs cur sep).toList
  | docs, cur, total, d :: ds =>
    if total + d.length + (if cur.length > 0 then sep.length else 0) > cs then
      if cur.length > 0 then
        mergeLoop cs co sep (docs ++ (joinDocs cur sep).toList)
          ((popWhile cs co sep.length d.length cur total).1 ++ [d])
          ((popWhile cs co sep.length d.length cur total).2 + d.length +
            (if ((popWhile cs co sep.length d.length cur total).1 ++ [d]).length > 1 then sep.length else 0))
          ds
      else
        mergeLoop cs co sep docs (cur ++ [d])
          (total + d.length + (if (cur ++ [d]).length > 1 then sep.length else 0)) ds
    else
      mergeLoop cs co sep docs (cur ++ [d])
        (total + d.length + (if (cur ++ [d]).length > 1 then sep.length else 0)) ds

/-- Embedding of langchain `_merge_splits(splits, separator)`. -/
def mergeSplits (cs co : Nat) (splits : List Str) (sep : Str) : List Str :=
  mergeLoop cs co sep [] [] 0 splits

/-- Loop of langchain `_split_text` over the splits: pieces shorter than
`chunk_size` are collected into `good`; an oversized piece flushes `good`
through `_merge_splits` and is either appended as-is (no further separators)
or recursively re-split with the remaining separators. -/
def splitLoop (cs co : Nat) (recurse : Option (Str → List Str)) (ms : Str) :
    List Str → List Str → List Str → List Str
  | [], good, final => final ++ (if good ≠ [] then mergeSplits cs co good ms else [])
  | s :: ss, good, final =>
    if s.length < cs then
      splitLoop cs co recurse ms ss (good ++ [s]) final
    else
      splitLoop cs co recurse ms ss []
        ((final ++ (if good ≠ [] then mergeSplits cs co good ms else [])) ++
          recurse.elim [s] (fun f => f s))

/-- Embedding of langchain `RecursiveCharacterTextSplitter._split_text`;
the fuel is the length of the separator list, which bounds the recursion
depth because `new_separators` is always a strict suffix.  With
`keep_separator=True` the merge separator is the empty string. -/
def splitTextGo (cs co : Nat) : Nat → List Str → Str → List Str
  | 0 => fun _ text => [text]
  | fuel + 1 => fun separators text =>
    let sp := pickSep text separators
    let splits := splitWithSep sp.1 text
    let recurse : Option (Str → List Str) :=
      if sp.2 = [] then none else some (fun s => splitTextGo cs co fuel sp.2 s)
    splitLoop cs co recurse [] splits [] []

/-- Separator priority list used by `ingest_document` and `setup_rag`:
paragraph break, line break, space, character-level fallback. -/
def PY_SEPARATORS : List Str := [['\n', '\n'], ['\n'], [' '], []]

/-- Embedding of `RecursiveCharacterTextSplitter(chunk_size, chunk_overlap).split_text`
as called by the source. -/
def splitText (cs co : Nat) (text : Str) : List Str :=
  splitTextGo cs co PY_SEPARATORS.length PY_SEPARATORS text

/-- Final path component, as python `pathlib.Path(p).name`. -/
def pathName (p : String) : String :=
  ((p.splitOn "/").filter (fun s => decide (s ≠ ""))).getLastD ""

/-- Index of the last dot in a name (python `name.rfind(".")`), if any. -/
def rfindDot (cs : List Char) : Option Nat :=
  ((cs.enum.filter (fun q => q.2 == '.')).getLast?).map (fun q => q.1)

/-- Embedding of python `pathlib.Path(p).stem`: the final component without
its last suffix; a leading or trailing dot is not a suffix. -/
def pathStem (p : String) : String :=
  let n := (pathName p).data
  match rfindDot n with
  | some i => if 0 < i ∧ i < n.length - 1 then String.mk (n.take i) else String.mk n
  | none => String.mk n

/-- Chunk metadata stored by `ingest_document`. -/
structure Meta where
  source : String
  chunk_id : Nat
  total_chunks : Nat
  deriving Repr, DecidableEq

/-- A stored (text, metadata) entry of the vector store. -/
structure Entry where
  text : Str
  meta : Meta
  deriving Repr, DecidableEq

/-- Persistent index model: association list from id to entry.  Modelled
from the spec: the external persistent vector index owns the stored tuples
and supports insertion/overwrite by id. -/
abbrev Index := List (String × Entry)

/-- Errors raised by the retrieval code: `FileNotFoundError` from the
missing-document check, `ValueError` from the langchain splitter
constructor. -/
inductive RagError where
  | fileNotFound (msg : String)
  | valueError (msg : String)
  deriving Repr, DecidableEq

/-- Modelled from the spec: the persistent index capability
`upsert(id, vector, text, metadata)` — overwrite the entry stored under
`id`, or add it when absent (idempotent overwrite on re-ingestion). -/
def upsertOne : Index → String → Entry → Index
  | [], id, e => [(id, e)]
  | p :: rest, id, e => if p.1 = id then (id, e) :: rest else p :: upsertOne rest id e

/-- Embedding of `vectorstore.add_texts(texts, metadatas, ids)`: upsert every
(id, text, metadata) tuple into the persistent index. -/
def addTexts (idx : Index) (pairs : List (String × Entry)) : Index :=
  pairs.foldl (fun acc pr => upsertOne acc pr.1 pr.2) idx

/-- Rows built by the `for i, chunk in enumerate(chunks)` loop of
`ingest_document`: the chunk text, its metadata
`{"source": str(file_path), "chunk_id": i, "total_chunks": len(chunks)}`,
and its id `f"{file_path.stem}_chunk_{i}"`. -/
def buildRows (file_path : String) (chunks : List Str) : List (Str × Meta × String) :=
  (List.range chunks.length).map (fun i =>
    (chunks.getD i [],
     { source := file_path, chunk_id := i, total_chunks := chunks.length },
     pathStem file_path ++ "_chunk_" ++ toString i))

/-- Outcome of one `ingest_document` call: the python return value or the
raised exception, the persistent index afterwards, and the traces of texts
sent to the embedding provider and of tuples upserted into the index. -/
structure IngestResult where
  ret : Except RagError Nat
  index : Index
  embedded : List Str
  upserts : List (String × Entry)
  deriving Repr

/-- Embedding of `KnowledgeBase.ingest_document(file_path, chunk_size, chunk_overlap)`:
raise `FileNotFoundError` when the path does not resolve; construct the
splitter, whose langchain constructor raises `ValueError` when
`chunk_overlap > chunk_size`; split the content; build documents, metadatas
and ids; `add_texts` embeds every chunk and upserts it; return `len(chunks)`. -/
def ingest_document (fs : Fs) (idx : Index) (file_path : String)
    (chunk_size : Nat := 1000) (chunk_overlap : Nat := 200) : IngestResult :=
  match fs file_path with
  | none =>
    { ret := .error (.fileNotFound ("Document not found: " ++ file_path)),
      index := idx, embedded := [], upserts := [] }
  | some content =>
    if chunk_overlap > chunk_size then
      { ret := .error (.valueError ("Got a larger chunk overlap (" ++ toString chunk_overlap ++
          ") than chunk size (" ++ toString chunk_size ++ "), should be smaller.")),
        index := idx, embedded := [], upserts := [] }
    else
      let chunks := splitText chunk_size chunk_overlap content
      let rows := buildRows file_path chunks
      let pairs := rows.map (fun r => (r.2.2, Entry.mk r.1 r.2.1))
      { ret := .ok chunks.length,
        index := addTexts idx pairs,
        embedded := rows.map (fun r => r.1),
        upserts := pairs }

/-- Does the index hold an entry under this id? -/
def hasId (idx : Index) (id : String) : Bool :=
  idx.any (fun p => p.1 == id)

/-- Entry stored under an id, if any. -/
def lookupId (idx : Index) (id : String) : Option Entry :=
  (idx.find? (fun p => p.1 == id)).map (fun p => p.2)

/-- Entry a pair list leaves under an id after all its upserts (the last
pair for the id wins), used to characterise `addTexts`. -/
def finalEntry : List (String × Entry) → String → Option Entry
  | [], _ => none
  | pr :: rest, x =>
    match finalEntry rest x with
    | some e => some e
    | none => if pr.1 = x then some pr.2 else none

/-- A retrieved document as langchain returns it: `page_content` and
`metadata`; the `Document` class has no score attribute. -/
structure Doc where
  page_content : Str
  metadata : Meta
  deriving Repr, DecidableEq

/-- Embedding of `getattr(doc, 'score', None)`: the langchain `Document`
class has no `score` attribute, so the default `None` is always taken. -/
def getattrScore (_d : Doc) : Option Nat := none

/-- One result dictionary built by `KnowledgeBase.search`. -/
structure SearchResult where
  content : Str
  metadata : Meta
  score : Option Nat
  deriving Repr, DecidableEq

/-- Insert an element into a list sorted by a numeric key. -/
def insertSorted (key : α → Nat) (a : α) : List α → List α
  | [] => [a]
  | b :: bs => if key a ≤ key b then a :: b :: bs else b :: insertSorted key a bs

/-- Sort a list by a numeric key, ascending. -/
def sortByKey (key : α → Nat) : List α → List α
  | [] => []
  | a :: as => insertSorted key a (sortByKey key as)

/-- Modelled from the spec: the persistent index capability
`nearest(query_vector, k) -> ranked (id, text, metadata, distance)` behind
`vectorstore.similarity_search(query, k)` — rank all stored entries by
ascending distance to the query (the embedding of query and entry is folded
into the abstract distance function `dist`) and return up to `k` of them as
langchain documents. -/
def similarity_search (dist : Str → Str → Nat) (idx : Index) (query : Str) (k : Int) : List Doc :=
  ((sortByKey (fun e => dist query e.text) (idx.map (fun p => p.2))).take k.toNat).map
    (fun e => { page_content := e.text, metadata := e.meta })

/-- Outcome of one `KnowledgeBase.search` call: the result dictionaries and
the trace of texts sent to the embedding provider (`similarity_search`
embeds the query before querying the index). -/
structure SearchOutput where
  results : List SearchResult
  embedded : List Str
  deriving Repr

/-- Embedding of `KnowledgeBase.search(query, k)`: no validation of `k`; the
query is embedded, the index queried, and each returned document wrapped as
`{"content": ..., "metadata": ..., "score": getattr(doc, 'score', None)}`. -/
def search (dist : Str → Str → Nat) (idx : Index) (query : Str) (k : Int := 5) : SearchOutput :=
  { results := (similarity_search dist idx query k).map (fun d =>
      { content := d.page_content, metadata := d.metadata, score := getattrScore d }),
    embedded := [query] }

/-- Outcome of `setup_rag`: the texts held by the returned vector store and
the trace of texts embedded during setup. -/
structure SetupResult where
  store : List Str
  embedded : List Str
  deriving Repr, DecidableEq

/-- Embedding of the standalone `rag.py` `setup_rag(text_file_path, persist_directry)`:
when the persist directory exists, reuse the existing store without touching
the document; otherwise read the document (python `open` raises
`FileNotFoundError` on a missing path), split it with
`chunk_size=1000, chunk_overlap=200`, and build the store from the chunks,
embedding every one of them. -/
def setup_rag (dirExists : Bool) (fs : Fs) (text_file_path : String)
    (existingStore : List Str) : Except RagError SetupResult :=
  if dirExists then .ok { store := existingStore, embedded := [] }
  else
    match fs text_file_path with
    | none => .error (.fileNotFound text_file_path)
    | some text =>
      .ok { store := splitText 1000 200 text, embedded := splitText 1000 200 text }

/-- Embedding of `query_rag(query, vector_store)`: `similarity_search` with
`k=2` over the store's texts, returning their page contents. -/
def query_rag (dist : Str → Str → Nat) (query : Str) (store : List Str) : List Str :=
  (sortByKey (fun t => dist query t) store).take 2

/-- The message of a raised error, python `str(e)`. -/
def errMsg : RagError → String
  | .fileNotFound m => m
  | .valueError m => m

/-- Substring test on `String`, via the character lists. -/
def strContains (needle hay : String) : Bool :=
  containsSub needle.data hay.data

/-- Python `sep.join(parts)` on `String`. -/
def joinWith (sep : String) : List String → String
  | [] => ""
  | [x] => x
  | x :: xs => x ++ sep ++ joinWith sep xs

/-- Fixed no-information reply of the `create_rag_tool` adapter. -/
def NO_INFO_KB : String := "No relevant information found in the knowledge base."

/-- Embedding of the `knowledge_base_search` closure built by
`KnowledgeBase.create_rag_tool`: the underlying `self.search(query, k=3)`
call either returns result dictionaries or raises, which the adapter's
`try/except` turns into outcome values; an exception becomes a text reply
carrying `str(e)`, no results become the fixed no-information reply, and
results are numbered from 1 and joined with blank lines. -/
def knowledge_base_search (outcome : Except RagError (List SearchResult)) : String :=
  match outcome with
  | .error e => "Error searching knowledge base: " ++ errMsg e
  | .ok results =>
    if results.isEmpty then NO_INFO_KB
    else
      joinWith "\n\n" (results.enum.map (fun p =>
        "Result " ++ toString (p.1 + 1) ++ ":\n" ++ String.mk p.2.content))

/-- Knowledge file path hard-coded in `tools.py` `query_information`. -/
def KB_FILE_PATH : String :=
  "C:/Users/ujwal/OneDrive/Documents/GitHub/SPAM_everything/LiveKit_demo/voice-agent/knowledge/rag_file.txt"

/-- Fixed no-information reply of `query_information`. -/
def NO_INFO_QI : String := "No relevant information found."

/-- Embedding of `tools.py` `query_information(query)`: call `setup_rag` on
the hard-coded file path (its exceptions are not caught and propagate), then
`query_rag`, then join the page contents with newlines or return the fixed
no-information reply. -/
def query_information (dirExists : Bool) (fs : Fs) (dist : Str → Str → Nat)
    (query : Str) (existingStore : List Str) : Except RagError String :=
  match setup_rag dirExists fs KB_FILE_PATH existingStore with
  | .error e => .error e
  | .ok res =>
    let docs := query_rag dist query res.store
    .ok (if docs.isEmpty then NO_INFO_QI else joinWith "\n" (docs.map String.mk))

/-- Total character count of a list of pieces. -/
def sumLens (l : List Str) : Nat := (l.map List.length).sum

/-- Fixture filesystem holding one two-character document. -/
def fsDoc : Fs := fun p => if p = "doc.txt" then some ['h', 'i'] else none

/-- Fixture filesystem with no files. -/
def fsNone : Fs := fun _ => none

/-- Fixture filesystem holding one empty document. -/
def fsEmptyDoc : Fs := fun p => if p = "empty.txt" then some [] else none

/-- Fixture distance function (all entries equally near). -/
def dist0 : Str → Str → Nat := fun _ _ => 0

/-! Properties of the chunker embedding. -/

theorem findSep_append (sep : Str) : ∀ text pre post, findSep sep text = some (pre, post) →
    pre ++ (sep ++ post) = text := by
  intro text
  induction text with
  | nil => intro pre post h; simp [findSep] at h
  | cons c rest ih =>
    intro pre post h
    by_cases hp : sep.isPrefixOf (c :: rest)
    · rw [findSep, if_pos hp] at h
      obtain ⟨t, ht⟩ := List.isPrefixOf_iff_prefix.mp hp
      simp only [Option.some.injEq, Prod.mk.injEq] at h
      obtain ⟨h1, h2⟩ := h
      subst h1
      subst h2
      rw [← ht, List.drop_left, List.nil_append]
    · rw [findSep, if_neg hp] at h
      cases hrec : findSep sep rest with
      | none => rw [hrec] at h; exact absurd h (by simp)
      | some pq =>
        rw [hrec] at h
        simp only [Option.some.injEq, Prod.mk.injEq] at h
        obtain ⟨h1, h2⟩ := h
        subst h1
        subst h2
        rw [List.cons_append]
        rw [ih pq.1 pq.2 (by rw [hrec])]

theorem splitOnSepFuel_ne_nil (sep : Str) (fuel : Nat) (text : Str) :
    splitOnSepFuel sep fuel text ≠ [] := by
  cases fuel with
  | zero => simp [splitOnSepFuel]
  | succ fuel =>
    cases hf : findSep sep text with
    | none => simp [splitOnSepFuel, hf]
    | some pq => simp [splitOnSepFuel, hf]

theorem withSeps_flatten (sep : Str) (hsep : sep ≠ []) :
    ∀ fuel text, text.length < fuel →
      (withSeps sep (splitOnSepFuel sep fuel text)).flatten = text := by
  intro fuel
  induction fuel with
  | zero => intro text h; exact absurd h (Nat.not_lt_zero _)
  | succ fuel ih =>
    intro text h
    cases hf : findSep sep text with
    | none => simp [splitOnSepFuel, hf, withSeps]
    | some pq =>
      obtain ⟨pre, post⟩ := pq
      have htext := findSep_append sep text pre post hf
      have hpost : post.length < fuel := by
        have hlen := congrArg List.length htext
        simp only [List.length_append] at hlen
        have hslen : 0 < sep.length := List.length_pos.mpr hsep
        omega
      cases hrec : splitOnSepFuel sep fuel post with
      | nil => exact absurd hrec (splitOnSepFuel_ne_nil sep fuel post)
      | cons q qs =>
        have hq := ih post hpost
        rw [hrec] at hq
        simp only [withSeps, List.map_cons, List.flatten_cons] at hq
        simp only [splitOnSepFuel, hf, hrec, withSeps, List.map_cons, List.flatten_cons]
        rw [← htext, ← hq]
        simp [List.append_assoc]

theorem flatten_filter_ne (L : List Str) :
    (L.filter (fun s => !decide (s = []))).flatten = L.flatten := by
  induction L with
  | nil => rfl
  | cons a L ih =>
    by_cases ha : a = []
    · subst ha
      simpa using ih
    · simp [List.filter_cons, ha, ih]

theorem flatten_map_singleton (l : Str) : (l.map (fun c => [c])).flatten = l := by
  induction l with
  | nil => rfl
  | cons c l ih => simp [List.map_cons, List.flatten_cons, ih]

theorem flatten_splitWithSep (sep text : Str) : (splitWithSep sep text).flatten = text := by
  unfold splitWithSep
  by_cases hsep : sep = []
  · subst hsep; rw [if_pos rfl, flatten_filter_ne, flatten_map_singleton]
  · rw [if_neg hsep, flatten_filter_ne]
    exact withSeps_flatten sep hsep (text.length + 1) text (Nat.lt_succ_self _)

theorem length_le_flatten {L : List Str} {s : Str} (h : s ∈ L) :
    s.length ≤ L.flatten.length := by
  induction L with
  | nil => cases h
  | cons a L ih =>
    cases h with
    | head => simp [List.flatten_cons, List.length_append]
    | tail _ h =>
      have := ih h
      simp only [List.flatten_cons, List.length_append]
      omega

theorem sepJoin_nil : ∀ l : List Str, sepJoin [] l = l.flatten := by
  intro l
  induction l with
  | nil => rfl
  | cons d l ih =>
    cases l with
    | nil => simp [sepJoin]
    | cons e l2 =>
      show d ++ [] ++ sepJoin [] (e :: l2) = (d :: e :: l2).flatten
      rw [ih]
      simp

theorem mergeLoop_nil_sep (cs co : Nat) :
    ∀ ds docs cur total, total + sumLens ds ≤ cs →
      mergeLoop cs co [] docs cur total ds = docs ++ (joinDocs (cur ++ ds) []).toList := by
  intro ds
  induction ds with
  | nil => intro docs cur total _; simp [mergeLoop]
  | cons d ds ih =>
    intro docs cur total h
    have hsum : sumLens (d :: ds) = d.length + sumLens ds := by simp [sumLens]
    have hcond : ¬ (total + d.length + (if cur.length > 0 then ([] : Str).length else 0) > cs) := by
      simp only [List.length_nil, ite_self]
      omega
    rw [mergeLoop, if_neg hcond]
    simp only [List.length_nil, ite_self, Nat.add_zero]
    rw [ih docs (cur ++ [d]) (total + d.length) (by omega)]
    simp [List.append_assoc]

theorem splitLoop_all_good (cs co : Nat) (r : Option (Str → List Str)) (ms : Str) :
    ∀ ss good final, (∀ s ∈ ss, s.length < cs) →
      splitLoop cs co r ms ss good final =
        final ++ (if good ++ ss ≠ [] then mergeSplits cs co (good ++ ss) ms else []) := by
  intro ss
  induction ss with
  | nil => intro good final _; simp [splitLoop]
  | cons s ss ih =>
    intro good final h
    rw [splitLoop, if_pos (h s (List.mem_cons_self s ss))]
    rw [ih (good ++ [s]) final (fun t ht => h t (List.mem_cons_of_mem _ ht))]
    simp [List.append_assoc]

theorem splitTextGo_succ_short (cs co fuel : Nat) (seps : List Str) (text : Str)
    (h : text.length < cs) :
    splitTextGo cs co (fuel + 1) seps text =
      if pyStrip text = [] then [] else [pyStrip text] := by
  have hjoin : (splitWithSep (pickSep text seps).1 text).flatten = text :=
    flatten_splitWithSep _ _
  have hall : ∀ s ∈ splitWithSep (pickSep text seps).1 text, s.length < cs := by
    intro s hs
    have h1 : s.length ≤ text.length := by
      have := length_le_flatten hs
      rwa [hjoin] at this
    omega
  simp only [splitTextGo]
  rw [splitLoop_all_good cs co _ [] _ [] [] hall]
  simp only [List.nil_append]
  by_cases hsp : splitWithSep (pickSep text seps).1 text = []
  · rw [hsp] at hjoin ⊢
    simp only [List.flatten_nil] at hjoin
    subst hjoin
    have hps : pyStrip ([] : Str) = [] := rfl
    simp [hps]
  · rw [if_pos (by simp [hsp])]
    have hsum : sumLens (splitWithSep (pickSep text seps).1 text) ≤ cs := by
      have hl : (splitWithSep (pickSep text seps).1 text).flatten.length =
          sumLens (splitWithSep (pickSep text seps).1 text) := by
        simp [sumLens, List.length_flatten]
      rw [hjoin] at hl
      omega
    rw [mergeSplits, mergeLoop_nil_sep cs co _ [] [] 0 (by omega)]
    simp only [List.nil_append, joinDocs, sepJoin_nil, hjoin]
    by_cases hst : pyStrip text = []
    · simp [hst]
    · simp [hst]

/-! Properties of the persistent-index model. -/

theorem lookupId_upsertOne_self (idx : Index) (a : String) (e : Entry) :
    lookupId (upsertOne idx a e) a = some e := by
  induction idx with
  | nil => simp [upsertOne, lookupId]
  | cons p rest ih =>
    by_cases hp : p.1 = a
    · rw [upsertOne, if_pos hp]
      simp [lookupId]
    · rw [upsertOne, if_neg hp]
      rw [lookupId, List.find?_cons_of_neg _ (by simp [hp])]
      exact ih

theorem lookupId_upsertOne_other (idx : Index) (a x : String) (e : Entry) (hx : x ≠ a) :
    lookupId (upsertOne idx a e) x = lookupId idx x := by
  induction idx with
  | nil => simp [upsertOne, lookupId, Ne.symm hx]
  | cons p rest ih =>
    by_cases hp : p.1 = a
    · rw [upsertOne, if_pos hp]
      rw [lookupId, List.find?_cons_of_neg _ (by simp [Ne.symm hx])]
      rw [lookupId, List.find?_cons_of_neg _ (by simp [hp, Ne.symm hx])]
    · rw [upsertOne, if_neg hp]
      by_cases hpx : p.1 = x
      · rw [lookupId, List.find?_cons_of_pos _ (by simp [hpx]),
          lookupId, List.find?_cons_of_pos _ (by simp [hpx])]
      · rw [lookupId, List.find?_cons_of_neg _ (by simp [hpx]),
          lookupId, List.find?_cons_of_neg _ (by simp [hpx])]
        exact ih

theorem mem_keys_upsertOne_self (idx : Index) (a : String) (e : Entry) :
    a ∈ (upsertOne idx a e).map Prod.fst := by
  induction idx with
  | nil => simp [upsertOne]
  | cons p rest ih =>
    by_cases hp : p.1 = a
    · simp [upsertOne, hp]
    · simp only [upsertOne, if_neg hp, List.map_cons, List.mem_cons]
      exact Or.inr ih

theorem mem_keys_upsertOne_of_mem (idx : Index) (a x : String) (e : Entry)
    (h : x ∈ idx.map Prod.fst) : x ∈ (upsertOne idx a e).map Prod.fst := by
  induction idx with
  | nil => cases h
  | cons p rest ih =>
    simp only [List.map_cons, List.mem_cons] at h
    by_cases hp : p.1 = a
    · rcases h with h | h
      · rw [h, hp]
        exact mem_keys_upsertOne_self (p :: rest) a e
      · simp only [upsertOne, if_pos hp, List.map_cons, List.mem_cons]
        exact Or.inr h
    · rcases h with h | h
      · simp [upsertOne, if_neg hp, List.map_cons, List.mem_cons, h]
      · simp only [upsertOne, if_neg hp, List.map_cons, List.mem_cons]
        exact Or.inr (ih h)

theorem keys_upsertOne_of_mem (idx : Index) (a : String) (e : Entry)
    (h : a ∈ idx.map Prod.fst) :
    (upsertOne idx a e).map Prod.fst = idx.map Prod.fst := by
  induction idx with
  | nil => cases h
  | cons p rest ih =>
    by_cases hp : p.1 = a
    · simp [upsertOne, hp]
    · simp only [List.map_cons, List.mem_cons] at h
      rcases h with h | h
      · exact absurd h.symm hp
      · simp only [upsertOne, if_neg hp, List.map_cons]
        rw [ih h]

theorem lookupId_addTexts (x : String) :
    ∀ (ps : List (String × Entry)) (idx : Index),
      lookupId (addTexts idx ps) x =
        match finalEntry ps x with
        | some e => some e
        | none => lookupId idx x := by
  intro ps
  induction ps with
  | nil => intro idx; simp [addTexts, finalEntry]
  | cons pr rest ih =>
    intro idx
    obtain ⟨a, e⟩ := pr
    show lookupId (addTexts (upsertOne idx a e) rest) x = _
    rw [ih (upsertOne idx a e)]
    cases hfe : finalEntry rest x with
    | some e2 => simp [finalEntry, hfe]
    | none =>
      simp only [finalEntry, hfe]
      by_cases hax : a = x
      · subst hax
        simp [lookupId_upsertOne_self]
      · rw [lookupId_upsertOne_other idx a x e (fun hc => hax hc.symm)]
        simp [hax]

theorem mem_keys_addTexts_of_mem (x : String) :
    ∀ (ps : List (String × Entry)) (idx : Index),
      x ∈ idx.map Prod.fst → x ∈ (addTexts idx ps).map Prod.fst := by
  intro ps
  induction ps with
  | nil => intro idx h; exact h
  | cons pr rest ih =>
    intro idx h
    exact ih (upsertOne idx pr.1 pr.2) (mem_keys_upsertOne_of_mem idx pr.1 x pr.2 h)

theorem pair_mem_keys_addTexts (pr : String × Entry) :
    ∀ (ps : List (String × Entry)) (idx : Index),
      pr ∈ ps → pr.1 ∈ (addTexts idx ps).map Prod.fst := by
  intro ps
  induction ps with
  | nil => intro idx h; cases h
  | cons q rest ih =>
    intro idx h
    cases h with
    | head =>
      exact mem_keys_addTexts_of_mem pr.1 rest (upsertOne idx pr.1 pr.2)
        (mem_keys_upsertOne_self idx pr.1 pr.2)
    | tail _ h => exact ih (upsertOne idx q.1 q.2) h

theorem keys_addTexts_all_mem :
    ∀ (ps : List (String × Entry)) (idx : Index),
      (∀ pr ∈ ps, pr.1 ∈ idx.map Prod.fst) →
      (addTexts idx ps).map Prod.fst = idx.map Prod.fst := by
  intro ps
  induction ps with
  | nil => intro idx _; rfl
  | cons q rest ih =>
    intro idx h
    have hq : q.1 ∈ idx.map Prod.fst := h q (List.mem_cons_self q rest)
    have hkeys := keys_upsertOne_of_mem idx q.1 q.2 hq
    show (addTexts (upsertOne idx q.1 q.2) rest).map Prod.fst = _
    rw [ih (upsertOne idx q.1 q.2)
      (fun pr hpr => by rw [hkeys]; exact h pr (List.mem_cons_of_mem _ hpr)), hkeys]

/-! Claims about ingestion. -/

/-- C1: for every readable document, `ingest_document` returns the number of
chunks the chunker produced from its text, and the ingestion run upserts
exactly one tuple per chunk where the i-th tuple's id is
`stem + "_chunk_" + i`, its metadata has `chunk_id = i` and `total_chunks`
equal to the returned count, and its text is the i-th chunk. -/
theorem ingest_run_layout (fs : Fs) (idx : Index) (path : String) (cs co : Nat) (content : Str)
    (hfs : fs path = some content) (hco : co ≤ cs) :
    (ingest_document fs idx path cs co).ret = .ok (splitText cs co content).length ∧
    (ingest_document fs idx path cs co).upserts.length = (splitText cs co content).length ∧
    ∀ i, i < (splitText cs co content).length →
      (ingest_document fs idx path cs co).upserts[i]? =
        some (pathStem path ++ "_chunk_" ++ toString i,
          Entry.mk ((splitText cs co content).getD i [])
            (Meta.mk path i (splitText cs co content).length)) := by
  have hco' : ¬ co > cs := by omega
  refine ⟨?_, ?_, ?_⟩
  · simp [ingest_document, hfs, hco']
  · simp [ingest_document, hfs, hco', buildRows]
  · intro i hi
    simp [ingest_document, hfs, hco', buildRows, List.getElem?_map, List.getElem?_range, hi]

theorem ingest_run_layout_witness :
    (ingest_document fsDoc [] "doc.txt" 1000 200).ret = .ok (splitText 1000 200 ['h', 'i']).length ∧
    (ingest_document fsDoc [] "doc.txt" 1000 200).upserts.length =
      (splitText 1000 200 ['h', 'i']).length ∧
    ∀ i, i < (splitText 1000 200 ['h', 'i']).length →
      (ingest_document fsDoc [] "doc.txt" 1000 200).upserts[i]? =
        some (pathStem "doc.txt" ++ "_chunk_" ++ toString i,
          Entry.mk ((splitText 1000 200 ['h', 'i']).getD i [])
            (Meta.mk "doc.txt" i (splitText 1000 200 ['h', 'i']).length)) :=
  ingest_run_layout fsDoc [] "doc.txt" 1000 200 ['h', 'i'] rfl (by decide)

/-- C2: re-ingesting the same document with the same content and parameters
leaves the persistent index extensionally unchanged: the same entry under
every id, the same id list (so the same set of distinct ids and no
duplicates), the same number of stored rows, and the same return value. -/
theorem ingest_twice_idempotent (fs : Fs) (idx : Index) (path : String) (cs co : Nat) :
    (∀ x, lookupId (ingest_document fs (ingest_document fs idx path cs co).index path cs co).index x
        = lookupId (ingest_document fs idx path cs co).index x) ∧
    (ingest_document fs (ingest_document fs idx path cs co).index path cs co).index.map Prod.fst
        = (ingest_document fs idx path cs co).index.map Prod.fst ∧
    (ingest_document fs (ingest_document fs idx path cs co).index path cs co).index.length
        = (ingest_document fs idx path cs co).index.length ∧
    (ingest_document fs (ingest_document fs idx path cs co).index path cs co).ret
        = (ingest_document fs idx path cs co).ret := by
  cases hfs : fs path with
  | none => simp [ingest_document, hfs]
  | some content =>
    by_cases hco : co > cs
    · simp [ingest_document, hfs, hco]
    · simp only [ingest_document, hfs, if_neg hco]
      have hkeys :
          (addTexts (addTexts idx ((buildRows path (splitText cs co content)).map
              (fun r => (r.2.2, Entry.mk r.1 r.2.1))))
            ((buildRows path (splitText cs co content)).map
              (fun r => (r.2.2, Entry.mk r.1 r.2.1)))).map Prod.fst =
          (addTexts idx ((buildRows path (splitText cs co content)).map
              (fun r => (r.2.2, Entry.mk r.1 r.2.1)))).map Prod.fst :=
        keys_addTexts_all_mem _ _ (fun pr hpr => pair_mem_keys_addTexts pr _ idx hpr)
      refine ⟨?_, hkeys, ?_, ?_⟩
      · intro x
        rw [lookupId_addTexts x _ (addTexts idx _)]
        cases hfe : finalEntry ((buildRows path (splitText cs co content)).map
            (fun r => (r.2.2, Entry.mk r.1 r.2.1))) x with
        | some e =>
          rw [lookupId_addTexts x _ idx]
          simp [hfe]
        | none => simp
      · have := congrArg List.length hkeys
        simpa using this
      · first
        | rfl
        | trivial

/-- C4 counterexample: the equality case `chunk_overlap = chunk_size` is
accepted by the langchain splitter constructor (its check is strict), so
`ingest_document` with `chunk_size = chunk_overlap = 100` on a readable
document succeeds and performs an embedding call instead of failing with a
configuration error. -/
theorem overlap_eq_size_accepted_cx :
    (ingest_document fsDoc [] "doc.txt" 100 100).ret = .ok 1 ∧
    (ingest_document fsDoc [] "doc.txt" 100 100).embedded.length = 1 := by
  exact ⟨rfl, rfl⟩

/-- C4 (amended): for every readable document, `ingest_document` with
`chunk_overlap > chunk_size` (strictly) fails with the splitter's
configuration `ValueError` before any embedding call or upsert is made and
leaves the persistent index unchanged; the equality case is accepted. -/
theorem ingest_overlap_gt_size (fs : Fs) (idx : Index) (path : String) (cs co : Nat) (content : Str)
    (hfs : fs path = some content) (hgt : co > cs) :
    ingest_document fs idx path cs co =
      { ret := .error (.valueError ("Got a larger chunk overlap (" ++ toString co ++
          ") than chunk size (" ++ toString cs ++ "), should be smaller.")),
        index := idx, embedded := [], upserts := [] } := by
  simp [ingest_document, hfs, hgt]

theorem ingest_overlap_gt_size_witness :
    ingest_document fsDoc [] "doc.txt" 100 200 =
      { ret := .error (.valueError ("Got a larger chunk overlap (" ++ toString 200 ++
          ") than chunk size (" ++ toString 100 ++ "), should be smaller.")),
        index := [], embedded := [], upserts := [] } :=
  ingest_overlap_gt_size fsDoc [] "doc.txt" 100 200 ['h', 'i'] rfl (by decide)

/-- C6: when the path does not resolve to an existing file, `ingest_document`
raises the not-found error and nothing is read, chunked, embedded or
upserted: the persistent index is returned unchanged and both traces are
empty. -/
theorem ingest_missing_document (fs : Fs) (idx : Index) (path : String) (cs co : Nat)
    (h : fs path = none) :
    ingest_document fs idx path cs co =
      { ret := .error (.fileNotFound ("Document not found: " ++ path)),
        index := idx, embedded := [], upserts := [] } := by
  simp [ingest_document, h]

theorem ingest_missing_document_witness :
    ingest_document fsNone [] "missing.txt" 1000 200 =
      { ret := .error (.fileNotFound ("Document not found: " ++ "missing.txt")),
        index := [], embedded := [], upserts := [] } :=
  ingest_missing_document fsNone [] "missing.txt" 1000 200 rfl

/-- C7 counterexample: the one-character whitespace document is non-empty and
strictly shorter than the default `chunk_size = 1000`, yet the chunker
yields no chunk at all (the merge step strips whitespace and drops the empty
result), not exactly one chunk. -/
theorem chunker_whitespace_short_cx :
    ([' '] : Str) ≠ [] ∧ ([' '] : Str).length < 1000 ∧ splitText 1000 200 [' '] = [] := by
  refine ⟨by decide, by decide, ?_⟩
  rfl

/-- C7 (amended): the empty input yields the empty chunk sequence (so
ingesting an empty document with valid parameters returns 0), and a document
strictly shorter than `chunk_size` yields exactly one chunk — its
whitespace-stripped text — when that stripped text is non-empty, and no
chunks when the document consists of whitespace only. -/
theorem chunker_empty_and_short (cs co : Nat) (text : Str) (h : text.length < cs) :
    splitText cs co [] = [] ∧
    (∀ fs idx path, fs path = some [] → co ≤ cs →
      (ingest_document fs idx path cs co).ret = .ok 0) ∧
    splitText cs co text = if pyStrip text = [] then [] else [pyStrip text] := by
  refine ⟨rfl, ?_, ?_⟩
  · intro fs idx path hfs hco
    have hco2 : ¬ co > cs := by omega
    simp [ingest_document, hfs, hco2]
    rfl
  · exact splitTextGo_succ_short cs co 3 PY_SEPARATORS text h

theorem chunker_empty_and_short_witness :
    (['h', 'i'] : Str).length < 1000 ∧
    (splitText 1000 200 [] = [] ∧
      (ingest_document fsEmptyDoc [] "empty.txt" 1000 200).ret = .ok 0 ∧
      splitText 1000 200 ['h', 'i'] =
        if pyStrip ['h', 'i'] = [] then [] else [pyStrip ['h', 'i']]) :=
  ⟨by decide,
    (chunker_empty_and_short 1000 200 ['h', 'i'] (by decide)).1,
    (chunker_empty_and_short 1000 200 ['h', 'i'] (by decide)).2.1 fsEmptyDoc [] "empty.txt"
      rfl (by decide),
    (chunker_empty_and_short 1000 200 ['h', 'i'] (by decide)).2.2⟩

/-! Properties of the search model. -/

theorem mem_insertSorted (key : α → Nat) (a x : α) :
    ∀ l, x ∈ insertSorted key a l → x = a ∨ x ∈ l := by
  intro l
  induction l with
  | nil =>
    intro h
    simpa [insertSorted] using h
  | cons b bs ih =>
    intro h
    rw [insertSorted] at h
    by_cases hc : key a ≤ key b
    · rw [if_pos hc] at h
      simp only [List.mem_cons] at h ⊢
      tauto
    · rw [if_neg hc] at h
      simp only [List.mem_cons] at h ⊢
      rcases h with h | h
      · tauto
      · rcases ih h with h | h <;> tauto

theorem pairwise_insertSorted (key : α → Nat) (a : α) :
    ∀ l, l.Pairwise (fun x y => key x ≤ key y) →
      (insertSorted key a l).Pairwise (fun x y => key x ≤ key y) := by
  intro l
  induction l with
  | nil => intro _; simp [insertSorted]
  | cons b bs ih =>
    intro h
    rw [List.pairwise_cons] at h
    obtain ⟨hb, hbs⟩ := h
    rw [insertSorted]
    by_cases hc : key a ≤ key b
    · rw [if_pos hc, List.pairwise_cons]
      constructor
      · intro y hy
        rcases List.mem_cons.mp hy with rfl | hy
        · exact hc
        · exact hc.trans (hb y hy)
      · rw [List.pairwise_cons]
        exact ⟨hb, hbs⟩
    · rw [if_neg hc, List.pairwise_cons]
      constructor
      · intro y hy
        rcases mem_insertSorted key a y bs hy with rfl | hy
        · omega
        · exact hb y hy
      · exact ih hbs

theorem pairwise_sortByKey (key : α → Nat) :
    ∀ l : List α, (sortByKey key l).Pairwise (fun x y => key x ≤ key y) := by
  intro l
  induction l with
  | nil => simp [sortByKey]
  | cons a l ih =>
    show (insertSorted key a (sortByKey key l)).Pairwise _
    exact pairwise_insertSorted key a (sortByKey key l) ih

/-! Claims about search. -/

/-- C3: `search(q, k)` returns at most `k` results (`k.toNat` bounds the
count, so at most `k` whenever `k ≥ 0`), the results are ordered by
ascending distance to the query (descending relevance), and an index with no
entries yields the empty result sequence rather than an error. -/
theorem search_bounded_ordered (dist : Str → Str → Nat) (idx : Index) (query : Str) (k : Int) :
    (search dist idx query k).results.length ≤ k.toNat ∧
    (search dist idx query k).results.Pairwise
      (fun r1 r2 => dist query r1.content ≤ dist query r2.content) ∧
    (idx = [] → (search dist idx query k).results = []) := by
  refine ⟨?_, ?_, ?_⟩
  · simp only [search, similarity_search, List.length_map]
    exact List.length_take_le _ _
  · simp only [search, similarity_search, List.map_map]
    have hp := pairwise_sortByKey (fun e => dist query e.text) (idx.map (fun p => p.2))
    have hp2 := List.Pairwise.sublist (List.take_sublist k.toNat _) hp
    exact List.pairwise_map.mpr hp2
  · intro h
    subst h
    simp [search, similarity_search, sortByKey]

theorem search_bounded_ordered_witness :
    (search dist0 [] ['q'] 5).results = [] :=
  (search_bounded_ordered dist0 [] ['q'] 5).2.2 rfl

/-- C5 counterexample: with `k = 0`, `search` does not fail fast with a
configuration error — it returns normally with the empty result list, and
the query has already been handed to the embedding provider, so an embedding
call precedes any possible failure. -/
theorem search_k_zero_no_error_cx :
    (search dist0 [] ['q'] 0).results = [] ∧ (search dist0 [] ['q'] 0).embedded = [['q']] :=
  ⟨rfl, rfl⟩

/-- C5 (amended): `search` performs no validation of `k`: for every `k ≤ 0`
it still embeds the query and queries the index — no configuration error is
raised before the embedding call — and under the modelled index semantics it
returns the empty result list. -/
theorem search_no_k_validation (dist : Str → Str → Nat) (idx : Index) (query : Str) (k : Int)
    (hk : k ≤ 0) :
    (search dist idx query k).results = [] ∧ (search dist idx query k).embedded = [query] := by
  have h0 : k.toNat = 0 := Int.toNat_of_nonpos hk
  constructor
  · simp [search, similarity_search, h0]
  · rfl

theorem search_no_k_validation_witness :
    (search dist0 [("a", Entry.mk ['x'] (Meta.mk "a.txt" 0 1))] ['q'] (-1)).results = [] ∧
    (search dist0 [("a", Entry.mk ['x'] (Meta.mk "a.txt" 0 1))] ['q'] (-1)).embedded = [['q']] :=
  search_no_k_validation dist0 [("a", Entry.mk ['x'] (Meta.mk "a.txt" 0 1))] ['q'] (-1)
    (by decide)

/-- C10: every result dictionary returned by `search` has score `None`: the
documents returned by the similarity search carry no score attribute, so
`getattr(doc, 'score', None)` always takes the default. -/
theorem search_score_always_none (dist : Str → Str → Nat) (idx : Index) (query : Str) (k : Int) :
    ∀ r ∈ (search dist idx query k).results, r.score = none := by
  intro r hr
  simp only [search, List.mem_map] at hr
  obtain ⟨d, _, rfl⟩ := hr
  rfl

theorem search_score_always_none_witness :
    (SearchResult.mk ['x'] (Meta.mk "a.txt" 0 1) none).score = none :=
  search_score_always_none dist0 [("a", Entry.mk ['x'] (Meta.mk "a.txt" 0 1))] ['q'] 5
    (SearchResult.mk ['x'] (Meta.mk "a.txt" 0 1) none) (by decide)

/-! Claims about store construction and the tool adapters. -/

theorem isPrefixOf_self (l : Str) : l.isPrefixOf l = true := by
  induction l with
  | nil => rfl
  | cons c cs ih => simp [List.isPrefixOf, ih]

theorem containsSub_append_self (n : Str) : ∀ pre, containsSub n (pre ++ n) = true := by
  intro pre
  induction pre with
  | nil =>
    cases n with
    | nil => rfl
    | cons c cs =>
      simp only [List.nil_append, containsSub]
      rw [isPrefixOf_self]
      rfl
  | cons c pre ih =>
    simp only [List.cons_append, containsSub]
    have ih2 : containsSub n (pre.append n) = true := ih
    rw [ih2]
    simp

theorem string_data_append (a b : String) : (a ++ b).data = a.data ++ b.data := by
  cases a
  cases b
  rfl

/-- C9 counterexample: `query_information` is not total — when the persist
directory is missing and the hard-coded knowledge file does not exist, the
`setup_rag` call inside it raises and the exception propagates to the caller
instead of being converted to a human-readable string. -/
theorem query_information_raises_cx :
    query_information false fsNone dist0 ['q'] [] = .error (.fileNotFound KB_FILE_PATH) := by
  rfl

/-- C9 (amended): the `create_rag_tool` adapter is total over the outcome of
the underlying search — an exception becomes a reply that contains the
error's message verbatim, and an empty result list yields the fixed
no-information reply; `query_information` yields its own fixed
no-information reply on empty results, but propagates exceptions (such as
the `FileNotFoundError` raised inside `setup_rag`) instead of converting
them to a string. -/
theorem adapter_error_conversion (e : RagError) (fs : Fs) (dist : Str → Str → Nat)
    (q : Str) (store : List Str) (hmiss : fs KB_FILE_PATH = none) :
    strContains (errMsg e) (knowledge_base_search (.error e)) = true ∧
    knowledge_base_search (.ok []) = NO_INFO_KB ∧
    query_information true fs dist q [] = .ok NO_INFO_QI ∧
    query_information false fs dist q store = .error (.fileNotFound KB_FILE_PATH) := by
  refine ⟨?_, rfl, rfl, ?_⟩
  · show containsSub (errMsg e).data ("Error searching knowledge base: " ++ errMsg e).data = true
    rw [string_data_append]
    exact containsSub_append_self (errMsg e).data ("Error searching knowledge base: ").data
  · simp [query_information, setup_rag, hmiss]

theorem adapter_error_conversion_witness :
    strContains (errMsg (.valueError "boom"))
      (knowledge_base_search (.error (.valueError "boom"))) = true ∧
    knowledge_base_search (.ok []) = NO_INFO_KB ∧
    query_information true fsNone dist0 ['q'] [] = .ok NO_INFO_QI ∧
    query_information false fsNone dist0 ['q'] [] = .error (.fileNotFound KB_FILE_PATH) :=
  adapter_error_conversion (.valueError "boom") fsNone dist0 ['q'] [] rfl
